import Mathlib

/-!
Shallow embedding of `xfields/ibs/_kicks.py` (IBS kick engine excerpt).

Numbers that the Python code holds in IEEE-754 doubles are modelled by `XF`,
an extended-rational value type with `+inf`, `-inf` and `nan`, whose
arithmetic follows the IEEE rules for the operations the code performs.
All concrete values appearing in the verified paths are exactly
representable, so exact rational arithmetic tracks the double computation.
-/

deriving instance DecidableEq for Except

namespace XfIBS

/-- Extended rational scalar mirroring an IEEE-754 double:
a finite value, the two infinities, or nan. -/
inductive XF where
  | fin : ℚ → XF
  | pinf : XF
  | ninf : XF
  | nan : XF
deriving DecidableEq, Repr, Inhabited

def XF.isFinite : XF → Bool
  | .fin _ => true
  | _ => false

def XF.isNan : XF → Bool
  | .nan => true
  | _ => false

/-- IEEE `<=` : any comparison with nan is false. -/
def XF.le : XF → XF → Bool
  | .nan, _ => false
  | _, .nan => false
  | .ninf, _ => true
  | .fin _, .ninf => false
  | .pinf, .ninf => false
  | .fin a, .fin b => decide (a ≤ b)
  | .fin _, .pinf => true
  | .pinf, .fin _ => false
  | .pinf, .pinf => true

/-- IEEE `<` : any comparison with nan is false. -/
def XF.lt : XF → XF → Bool
  | .nan, _ => false
  | _, .nan => false
  | .ninf, .ninf => false
  | .ninf, _ => true
  | .fin _, .ninf => false
  | .pinf, _ => false
  | .fin a, .fin b => decide (a < b)
  | .fin _, .pinf => true

/-- IEEE `==` : nan is not equal to anything, including itself. -/
def XF.eqb : XF → XF → Bool
  | .nan, _ => false
  | _, .nan => false
  | .fin a, .fin b => decide (a = b)
  | .pinf, .pinf => true
  | .ninf, .ninf => true
  | _, _ => false

def XF.add : XF → XF → XF
  | .nan, _ => .nan
  | _, .nan => .nan
  | .fin a, .fin b => .fin (a + b)
  | .fin _, .pinf => .pinf
  | .fin _, .ninf => .ninf
  | .pinf, .fin _ => .pinf
  | .ninf, .fin _ => .ninf
  | .pinf, .pinf => .pinf
  | .pinf, .ninf => .nan
  | .ninf, .pinf => .nan
  | .ninf, .ninf => .ninf

def XF.sub : XF → XF → XF
  | .nan, _ => .nan
  | _, .nan => .nan
  | .fin a, .fin b => .fin (a - b)
  | .fin _, .pinf => .ninf
  | .fin _, .ninf => .pinf
  | .pinf, .fin _ => .pinf
  | .ninf, .fin _ => .ninf
  | .pinf, .pinf => .nan
  | .pinf, .ninf => .pinf
  | .ninf, .pinf => .ninf
  | .ninf, .ninf => .nan

def XF.mul : XF → XF → XF
  | .nan, _ => .nan
  | _, .nan => .nan
  | .fin a, .fin b => .fin (a * b)
  | .fin a, .pinf => if a = 0 then .nan else if 0 < a then .pinf else .ninf
  | .fin a, .ninf => if a = 0 then .nan else if 0 < a then .ninf else .pinf
  | .pinf, .fin b => if b = 0 then .nan else if 0 < b then .pinf else .ninf
  | .ninf, .fin b => if b = 0 then .nan else if 0 < b then .ninf else .pinf
  | .pinf, .pinf => .pinf
  | .pinf, .ninf => .ninf
  | .ninf, .pinf => .ninf
  | .ninf, .ninf => .pinf

/-- IEEE division without signed zero: a finite nonzero value divided by
zero gives the correspondingly signed infinity, `0/0` gives nan. -/
def XF.div : XF → XF → XF
  | .nan, _ => .nan
  | _, .nan => .nan
  | .fin a, .fin b =>
      if b = 0 then (if a = 0 then .nan else if 0 < a then .pinf else .ninf)
      else .fin (a / b)
  | .fin _, .pinf => .fin 0
  | .fin _, .ninf => .fin 0
  | .pinf, .fin b => if 0 ≤ b then .pinf else .ninf
  | .ninf, .fin b => if 0 ≤ b then .ninf else .pinf
  | .pinf, .pinf => .nan
  | .pinf, .ninf => .nan
  | .ninf, .pinf => .nan
  | .ninf, .ninf => .nan

@[simp] theorem XF.add_fin (a b : ℚ) : XF.add (.fin a) (.fin b) = .fin (a + b) := rfl
@[simp] theorem XF.sub_fin (a b : ℚ) : XF.sub (.fin a) (.fin b) = .fin (a - b) := rfl
@[simp] theorem XF.mul_fin (a b : ℚ) : XF.mul (.fin a) (.fin b) = .fin (a * b) := rfl
@[simp] theorem XF.le_fin (a b : ℚ) : XF.le (.fin a) (.fin b) = decide (a ≤ b) := rfl
@[simp] theorem XF.lt_fin (a b : ℚ) : XF.lt (.fin a) (.fin b) = decide (a < b) := rfl

theorem XF.div_fin_of_ne (a b : ℚ) (hb : b ≠ 0) :
    XF.div (.fin a) (.fin b) = .fin (a / b) := by
  simp [XF.div, hb]

theorem XF.div_fin_zero_pos (a : ℚ) (ha : 0 < a) :
    XF.div (.fin a) (.fin 0) = .pinf := by
  simp [XF.div, ha, ne_of_gt ha]

/-- Model of `numpy.max` on a 1-D array: raises on an empty array. -/
def npMax : List ℚ → Except String ℚ
  | [] => .error "zero-size array to reduction operation maximum which has no identity"
  | x :: xs => .ok (xs.foldl max x)

/-- Model of `numpy.min` on a 1-D array: raises on an empty array. -/
def npMin : List ℚ → Except String ℚ
  | [] => .error "zero-size array to reduction operation minimum which has no identity"
  | x :: xs => .ok (xs.foldl min x)

/-- Model of `numpy.linspace(start, stop, num)` with `endpoint=True`:
`num` evenly spaced samples; the last sample is exactly `stop`;
a negative `num` raises `ValueError`. -/
def linspace (start stop : XF) (num : Int) : Except String (List XF) :=
  if num < 0 then .error "Number of samples must be non-negative"
  else if num = 0 then .ok []
  else if num = 1 then .ok [start]
  else
    .ok ((List.range num.toNat).map (fun (i : Nat) =>
      if (i : Int) = num - 1 then stop
      else XF.add start (XF.mul (.fin (i : ℚ))
        (XF.div (XF.sub stop start) (.fin ((num - 1 : Int) : ℚ))))))

/-- The monotonicity check `numpy.histogram` runs on explicit bin edges:
it rejects edges only when some edge strictly exceeds its successor
(IEEE comparison, so nan edges pass). -/
def edgesMonotone (edges : List XF) : Bool :=
  (List.range (edges.length - 1)).all
    (fun i => ! XF.lt (edges.getD (i + 1) .nan) (edges.getD i .nan))

/-- Bin membership used by `numpy.histogram`: bin `i` is the half-open
interval between consecutive edges, except the last bin which is closed. -/
def inBin (edges : List XF) (i : Nat) (z : ℚ) : Bool :=
  XF.le (edges.getD i .nan) (.fin z) &&
    (if i + 2 = edges.length then XF.le (.fin z) (edges.getD (i + 1) .nan)
     else XF.lt (.fin z) (edges.getD (i + 1) .nan))

def histogramCounts (zs : List ℚ) (edges : List XF) : List Nat :=
  (List.range (edges.length - 1)).map (fun i => (zs.filter (inBin edges i)).length)

/-- Model of `numpy.histogram(zs, bins=edges, density=True)`: the counts are
divided elementwise by the bin widths, then by the total in-range count,
exactly in that order (`n / db / n.sum()`). -/
def histogramDensity (zs : List ℚ) (edges : List XF) : Except String (List XF) :=
  if edgesMonotone edges then
    .ok ((List.range (edges.length - 1)).map (fun i =>
      XF.div
        (XF.div (.fin (((zs.filter (inBin edges i)).length : ℚ)))
          (XF.sub (edges.getD (i + 1) .nan) (edges.getD i .nan)))
        (.fin ((histogramCounts zs edges).sum : ℚ))))
  else .error "bins must increase monotonically, when an array"

/-- One-point evaluation of `numpy.interp`, following the C implementation:
a single sample point returns its value; otherwise the rightmost index `j`
with `xp[j] <= x` is located (searchsorted semantics on the non-decreasing
grid), clamping outside the grid, returning `fp[j]` on an exact match or at
the top, and interpolating linearly in between (with the nan fallback the C
code applies to the slope form). -/
def interpOne (xp fp : List XF) (x : XF) : XF :=
  if xp.length = 1 then fp.getD 0 .nan
  else
    let cnt := (xp.filter (fun e => XF.le e x)).length
    if cnt = 0 then fp.getD 0 .nan
    else if cnt = xp.length then fp.getD (xp.length - 1) .nan
    else
      let j := cnt - 1
      if XF.eqb (xp.getD j .nan) x then fp.getD j .nan
      else
        let slope := XF.div (XF.sub (fp.getD (j + 1) .nan) (fp.getD j .nan))
                            (XF.sub (xp.getD (j + 1) .nan) (xp.getD j .nan))
        let r1 := XF.add (XF.mul slope (XF.sub x (xp.getD j .nan))) (fp.getD j .nan)
        if r1.isNan then
          let r2 := XF.add (XF.mul slope (XF.sub x (xp.getD (j + 1) .nan)))
                           (fp.getD (j + 1) .nan)
          if r2.isNan && XF.eqb (fp.getD j .nan) (fp.getD (j + 1) .nan) then
            fp.getD j .nan
          else r2
        else r1

/-- Model of `numpy.interp(xs, xp, fp)`: raises on an empty sample grid or
mismatched lengths, otherwise maps `interpOne` over the query points. -/
def npInterp (xs : List ℚ) (xp fp : List XF) : Except String (List XF) :=
  if xp.length = 0 then .error "array of sample points is empty"
  else if xp.length ≠ fp.length then .error "fp and xp are not of the same length"
  else .ok (xs.map (fun z => interpOne xp fp (.fin z)))

/-- The fields of `xtrack.Particles` the kick engine reads or writes:
longitudinal coordinate `zeta`, the per-particle liveness `state`
(active iff positive), and the three momentum coordinates. -/
structure Particles where
  zeta : List ℚ
  state : List Int
  px : List ℚ
  py : List ℚ
  delta : List ℚ
deriving Repr, DecidableEq

/-- The selection `particles.zeta[particles.state > 0]` from line 164:
zeta values of active particles, in ensemble order. -/
def activeZeta (p : Particles) : List ℚ :=
  ((p.zeta.zip p.state).filter (fun zs => decide (0 < zs.2))).map Prod.fst

/-- The `1e-7` padding factor of lines 172-173 (exact-rational idealisation;
every use in the verified paths multiplies it by an exactly-zero or
exactly-representable slice width). -/
def padFactor : ℚ := 1 / 10000000

/-- Lines 165-177 of `line_density`: head/tail cuts over active particles,
slice width, the `num_slices + 1` padded bin edges via linspace, and the
bin centers as midpoints of consecutive edges. -/
def lineDensityGrid (particles : Particles) (num_slices : Int) :
    Except String (List XF × List XF) :=
  match npMax (activeZeta particles) with
  | .error e => .error e
  | .ok z_cut_head =>
    match npMin (activeZeta particles) with
    | .error e => .error e
    | .ok z_cut_tail =>
      match linspace
          (XF.sub (.fin z_cut_tail) (XF.mul (.fin padFactor)
            (XF.div (.fin (z_cut_head - z_cut_tail)) (.fin (num_slices : ℚ)))))
          (XF.add (.fin z_cut_head) (XF.mul (.fin padFactor)
            (XF.div (.fin (z_cut_head - z_cut_tail)) (.fin (num_slices : ℚ)))))
          (num_slices + 1) with
      | .error e => .error e
      | .ok bin_edges =>
          .ok (bin_edges, List.zipWith
            (fun a b => XF.div (XF.add a b) (.fin 2)) bin_edges bin_edges.tail)

/-- Lines 158-181: `line_density(particles, num_slices)`. Computes the grid,
the density-normalised histogram of active zeta values, and interpolates the
density back onto each active particle's zeta; exceptions propagate. -/
def line_density (particles : Particles) (num_slices : Int) :
    Except String (List XF) :=
  match lineDensityGrid particles num_slices with
  | .error e => .error e
  | .ok (bin_edges, bin_centers) =>
    match histogramDensity (activeZeta particles) bin_edges with
    | .error e => .error e
    | .ok counts_normed => npInterp (activeZeta particles) bin_centers counts_normed

/-- Error values corresponding to the exceptions the Python classes raise:
the constructor assertion (line 254) and the `NotImplementedError` of
`to_dict` (line 196). -/
inductive KickError where
  | assertionError
  | notImplementedError
deriving Repr, DecidableEq

/-- Lines 102-130: `IBSKickCoefficients`, an `xo.HybridClass` holding the
three kick coefficients as Float64 fields. -/
structure IBSKickCoefficients where
  Kx : ℚ
  Ky : ℚ
  Kz : ℚ
deriving Repr, DecidableEq

/-- Line 128-130: return the coefficients as a tuple `(Kx, Ky, Kz)`. -/
def IBSKickCoefficients.as_tuple (k : IBSKickCoefficients) : ℚ × ℚ × ℚ :=
  (k.Kx, k.Ky, k.Kz)

/-- Lines 40-68: `DiffusionCoefficients` value object. -/
structure DiffusionCoefficients where
  Dx : ℚ
  Dy : ℚ
  Dz : ℚ
deriving Repr, DecidableEq

/-- Line 66-68: return the coefficients as a tuple `(Dx, Dy, Dz)`. -/
def DiffusionCoefficients.as_tuple (d : DiffusionCoefficients) : ℚ × ℚ × ℚ :=
  (d.Dx, d.Dy, d.Dz)

/-- Lines 71-99: `FrictionCoefficients` value object. -/
structure FrictionCoefficients where
  Fx : ℚ
  Fy : ℚ
  Fz : ℚ
deriving Repr, DecidableEq

/-- Line 97-99: return the coefficients as a tuple `(Fx, Fy, Fz)`. -/
def FrictionCoefficients.as_tuple (f : FrictionCoefficients) : ℚ × ℚ × ℚ :=
  (f.Fx, f.Fy, f.Fz)

/-- Model of CPython `str.lower` restricted to ASCII (every formalism
string the code compares against is ASCII): lowercases each character. -/
def pyLower (s : String) : String := String.mk (s.data.map Char.toLower)

/-- The accepted formalism strings of line 254, all lowercase. -/
def acceptedFormalisms : List String := ["nagaitsev", "bjorken-mtingwa", "b&m"]

/-- The state of an `IBSSimpleKick` instance after `__init__`
(lines 238-263): the constructor arguments plus the fields that start
unset (`None`) and the scale-strength factor that starts at `0`. -/
structure IBSSimpleKick where
  num_slices : Int
  formalism : String
  kick_coefficients : Option IBSKickCoefficients
  update_every : Option Int
  name : Option String
  scale_strength : ℚ
deriving Repr, DecidableEq

/-- Lines 238-263: `IBSSimpleKick.__init__`. The only validation is
`assert formalism.lower() in ("nagaitsev", "bjorken-mtingwa", "b&m")`;
`num_slices` is stored unconditionally, `kick_coefficients`,
`update_every` and `_name` start as `None`, and `_scale_strength`
starts at `0` (element off by default). -/
def IBSSimpleKick.init (formalism : String) (num_slices : Int) :
    Except KickError IBSSimpleKick :=
  if pyLower formalism ∈ acceptedFormalisms then
    .ok { num_slices := num_slices
          formalism := formalism
          kick_coefficients := none
          update_every := none
          name := none
          scale_strength := 0 }
  else .error .assertionError

/-- Modelled from the spec: the provided source file ends with
`IBSSimpleKick.__init__`, so the `track` method itself is not in the
excerpt. Spec section 4.4 step 1 fixes the branch this development relies
on: when the internal scale-strength factor is zero (unconfigured element),
`track` is a no-op — it does not mutate particles, does not recompute
coefficients, and does not consume random draws. The configured branch
(nonzero scale strength) is abstracted coarsely, faithful only in shape to
spec steps 2-7: it consumes three standard-normal draws per active particle
(the generator is modelled as a draw counter) and perturbs the momenta of
active particles by a surrogate nonzero increment; no claim depends on it. -/
def IBSSimpleKick.track (k : IBSSimpleKick) (p : Particles) (rngDraws : Nat) :
    IBSSimpleKick × Particles × Nat :=
  if k.scale_strength = 0 then (k, p, rngDraws)
  else
    ( { k with kick_coefficients := some { Kx := 0, Ky := 0, Kz := 0 } },
      { p with
        px := List.zipWith (fun v s => if 0 < s then v + 1 else v) p.px p.state
        py := List.zipWith (fun v s => if 0 < s then v + 1 else v) p.py p.state
        delta := List.zipWith (fun v s => if 0 < s then v + 1 else v) p.delta p.state },
      rngDraws + 3 * (activeZeta p).length )

/-- The kick element instances on which `to_dict` can be invoked: the
`IBSKick` parent (lines 187-196) or an `IBSSimpleKick` subclass instance,
which inherits `to_dict` unchanged. -/
inductive IBSKickElement where
  | base
  | simple (k : IBSSimpleKick)
deriving Repr, DecidableEq

/-- Lines 194-196: `IBSKick.to_dict` unconditionally raises
`NotImplementedError`, for every element state. -/
def IBSKickElement.to_dict (_e : IBSKickElement) :
    Except KickError (List (String × String)) :=
  .error .notImplementedError

/-- State-passing form of `line_density`: the particle ensemble is threaded
through the call and returned alongside the result, making the absence of
mutation an explicit, provable frame property. -/
def line_densityS (particles : Particles) (num_slices : Int) :
    Particles × Except String (List XF) :=
  match lineDensityGrid particles num_slices with
  | .error e => (particles, .error e)
  | .ok (bin_edges, bin_centers) =>
    match histogramDensity (activeZeta particles) bin_edges with
    | .error e => (particles, .error e)
    | .ok counts_normed =>
        (particles, npInterp (activeZeta particles) bin_centers counts_normed)

/-! Concrete ensembles used to instantiate the theorems. -/

/-- Two active particles at distinct zeta values 0 and 1. -/
def pW : Particles := ⟨[0, 1], [1, 1], [0, 0], [0, 0], [0, 0]⟩

/-- Degenerate ensemble: two active particles, both at zeta = 1. -/
def pDeg : Particles := ⟨[1, 1], [1, 1], [0, 0], [0, 0], [0, 0]⟩

/-- Ensemble with active zeta values [1, 2] plus one inactive particle. -/
def pA : Particles := ⟨[5, 1, 2], [0, 1, 1], [0, 0, 0], [0, 0, 0], [0, 0, 0]⟩

/-- Ensemble with the same active zeta values [1, 2] but different
inactive particles (different count, positions and coordinates). -/
def pB : Particles :=
  ⟨[1, 2, 9, 9], [1, 1, 0, -1], [0, 0, 0, 0], [0, 0, 0, 0], [0, 0, 0, 0]⟩

/-- The element state produced by `IBSSimpleKick("nagaitsev", 50)`. -/
def kFresh : IBSSimpleKick := ⟨50, "nagaitsev", none, none, none, 0⟩

/-! Shared helper lemmas. -/

theorem getD_map_range {α : Type} (k i : Nat) (f : Nat → α) (d : α) (h : i < k) :
    ((List.range k).map f).getD i d = f i := by
  rw [List.getD_eq_getElem?_getD]
  simp [List.getElem?_range, h]

theorem getD_replicate_lt {α : Type} (k i : Nat) (a d : α) (h : i < k) :
    (List.replicate k a).getD i d = a := by
  rw [List.getD_eq_getElem?_getD]
  simp [List.getElem?_replicate, h]

theorem npMax_ok_of_ne (l : List ℚ) (h : l ≠ []) : ∃ q, npMax l = Except.ok q := by
  cases l with
  | nil => exact absurd rfl h
  | cons x xs => exact ⟨_, rfl⟩

theorem npMin_ok_of_ne (l : List ℚ) (h : l ≠ []) : ∃ q, npMin l = Except.ok q := by
  cases l with
  | nil => exact absurd rfl h
  | cons x xs => exact ⟨_, rfl⟩

theorem foldl_max_const (c : ℚ) :
    ∀ (xs : List ℚ) (x : ℚ), (∀ y ∈ xs, y = c) → x = c → xs.foldl max x = c := by
  intro xs
  induction xs with
  | nil => intro x _ hx; simpa using hx
  | cons y ys ih =>
      intro x hall hx
      have hy : y = c := hall y (by simp)
      have : max x y = c := by rw [hx, hy]; exact max_self c
      exact ih (max x y) (fun z hz => hall z (by simp [hz])) this

theorem foldl_min_const (c : ℚ) :
    ∀ (xs : List ℚ) (x : ℚ), (∀ y ∈ xs, y = c) → x = c → xs.foldl min x = c := by
  intro xs
  induction xs with
  | nil => intro x _ hx; simpa using hx
  | cons y ys ih =>
      intro x hall hx
      have hy : y = c := hall y (by simp)
      have : min x y = c := by rw [hx, hy]; exact min_self c
      exact ih (min x y) (fun z hz => hall z (by simp [hz])) this

theorem npMax_const (l : List ℚ) (c : ℚ) (hne : l ≠ []) (hall : ∀ y ∈ l, y = c) :
    npMax l = Except.ok c := by
  cases l with
  | nil => exact absurd rfl hne
  | cons x xs =>
      have hstep : npMax (x :: xs) = Except.ok (xs.foldl max x) := rfl
      rw [hstep, foldl_max_const c xs x (fun y hy => hall y (by simp [hy])) (hall x (by simp))]

theorem npMin_const (l : List ℚ) (c : ℚ) (hne : l ≠ []) (hall : ∀ y ∈ l, y = c) :
    npMin l = Except.ok c := by
  cases l with
  | nil => exact absurd rfl hne
  | cons x xs =>
      have hstep : npMin (x :: xs) = Except.ok (xs.foldl min x) := rfl
      rw [hstep, foldl_min_const c xs x (fun y hy => hall y (by simp [hy])) (hall x (by simp))]

theorem linspace_const_fin (q : ℚ) (num : Int) (h : 0 ≤ num) :
    linspace (.fin q) (.fin q) num = Except.ok (List.replicate num.toNat (.fin q)) := by
  unfold linspace
  rcases lt_trichotomy num 1 with h1 | h1 | h1
  · interval_cases num
    · simp
  · subst h1
    simp
  · rw [if_neg (by omega), if_neg (by omega), if_neg (by omega)]
    refine congrArg Except.ok (List.eq_replicate_iff.mpr
      ⟨by rw [List.length_map, List.length_range], ?_⟩)
    intro b hb
    simp only [List.mem_map, List.mem_range] at hb
    obtain ⟨i, _, hi⟩ := hb
    by_cases hc : (i : Int) = num - 1
    · rw [if_pos hc] at hi
      exact hi.symm
    · rw [if_neg hc] at hi
      have hd : ((num - 1 : Int) : ℚ) ≠ 0 := by
        have : (2 : Int) ≤ num := by omega
        exact_mod_cast (by omega : (num : Int) - 1 ≠ 0)
      rw [XF.sub_fin, sub_self, XF.div_fin_of_ne _ _ hd, zero_div, XF.mul_fin,
        mul_zero, XF.add_fin, add_zero] at hi
      exact hi.symm

theorem XF.div_pinf_fin (b : ℚ) (hb : 0 ≤ b) :
    XF.div .pinf (.fin b) = .pinf := by
  simp [XF.div, hb]

theorem zipWith_mid_replicate (k : Nat) (c : ℚ) :
    List.zipWith (fun a b => XF.div (XF.add a b) (.fin 2))
      (List.replicate (k + 1) (XF.fin c)) (List.replicate (k + 1) (XF.fin c)).tail
      = List.replicate k (XF.fin c) := by
  have ht : (List.replicate (k + 1) (XF.fin c)).tail = List.replicate k (XF.fin c) := by
    simp
  rw [ht, List.zipWith_replicate, min_eq_right (Nat.le_succ k), XF.add_fin,
    XF.div_fin_of_ne _ _ (two_ne_zero), show (c + c) / 2 = c by ring]

theorem edgesMonotone_replicate (k : Nat) (c : ℚ) :
    edgesMonotone (List.replicate (k + 1) (XF.fin c)) = true := by
  unfold edgesMonotone
  rw [List.all_eq_true]
  intro i hi
  rw [List.mem_range] at hi
  simp only [List.length_replicate] at hi
  rw [getD_replicate_lt _ _ _ _ (by omega), getD_replicate_lt _ _ _ _ (by omega),
    XF.lt_fin]
  simp

theorem interpOne_const_top (k : Nat) (hk : 1 ≤ k) (c : ℚ) (fp : List XF) :
    interpOne (List.replicate k (XF.fin c)) fp (XF.fin c) = fp.getD (k - 1) .nan := by
  have hfil : (List.replicate k (XF.fin c)).filter (fun e => XF.le e (XF.fin c)) =
      List.replicate k (XF.fin c) := by
    refine List.filter_eq_self.mpr ?_
    intro a ha
    rw [List.eq_of_mem_replicate ha, XF.le_fin]
    simp
  unfold interpOne
  by_cases h1 : (List.replicate k (XF.fin c)).length = 1
  · rw [if_pos h1]
    have : k = 1 := by simpa using h1
    rw [this]
  · rw [if_neg h1]
    simp only [hfil, List.length_replicate]
    have h0 : ¬ (k = 0) := by omega
    simp [h0]

theorem histogramDensity_const_spec (zs : List ℚ) (c : ℚ) (k : Nat) (hk : 1 ≤ k)
    (hall : ∀ z ∈ zs, z = c) :
    ∃ fp, histogramDensity zs (List.replicate (k + 1) (XF.fin c)) = Except.ok fp ∧
      fp.length = k ∧
      ((zs ≠ []) → fp.getD (k - 1) .nan = XF.pinf) := by
  unfold histogramDensity
  rw [if_pos (edgesMonotone_replicate k c)]
  refine ⟨_, rfl, ?_, ?_⟩
  · rw [List.length_map, List.length_range, List.length_replicate]
    omega
  · intro hne
    rw [List.length_replicate]
    have hkk : k + 1 - 1 = k := by omega
    rw [hkk, getD_map_range k (k - 1) _ _ (by omega)]
    have hfil : zs.filter (inBin (List.replicate (k + 1) (XF.fin c)) (k - 1)) = zs := by
      refine List.filter_eq_self.mpr ?_
      intro z hz
      rw [hall z hz]
      unfold inBin
      rw [getD_replicate_lt _ _ _ _ (by omega), List.length_replicate,
        if_pos (by omega), getD_replicate_lt _ _ _ _ (by omega), XF.le_fin]
      simp
    rw [hfil, getD_replicate_lt _ _ _ _ (by omega), getD_replicate_lt _ _ _ _ (by omega),
      XF.sub_fin, sub_self]
    have hm : (0 : ℚ) < ((zs.length : ℚ)) := by
      have : 0 < zs.length := List.length_pos.mpr hne
      exact_mod_cast this
    rw [XF.div_fin_zero_pos _ hm, XF.div_pinf_fin _ (by positivity)]

theorem linspace_neg (a b : XF) (num : Int) (h : num < 0) :
    linspace a b num = Except.error "Number of samples must be non-negative" := by
  unfold linspace
  rw [if_pos h]

theorem linspace_zero (a b : XF) : linspace a b 0 = Except.ok [] := rfl

theorem linspace_one (a b : XF) : linspace a b 1 = Except.ok [a] := rfl

theorem npInterp_nil (xs : List ℚ) (fp : List XF) :
    npInterp xs [] fp = Except.error "array of sample points is empty" := rfl

theorem histogramDensity_nil (zs : List ℚ) :
    histogramDensity zs [] = Except.ok [] := rfl

theorem histogramDensity_single (zs : List ℚ) (a : XF) :
    histogramDensity zs [a] = Except.ok [] := rfl

/-- On a degenerate ensemble (every active particle at the same zeta), the
slice width is exactly zero, the padded edges and the centers all collapse
to that zeta, the whole active population lands in the closed last bin
whose width is zero, the density normalisation divides by that zero width,
and interpolation hands the resulting positive infinity back to every
particle: the weight array is `replicate m +inf`. -/
theorem line_density_degenerate (p : Particles) (n : Int) (c : ℚ)
    (hne : activeZeta p ≠ []) (hall : ∀ z ∈ activeZeta p, z = c) (hn : 1 ≤ n) :
    line_density p n = Except.ok (List.replicate (activeZeta p).length XF.pinf) := by
  have hmax := npMax_const (activeZeta p) c hne hall
  have hmin := npMin_const (activeZeta p) c hne hall
  have hn0 : ((n : ℚ)) ≠ 0 := by exact_mod_cast (by omega : n ≠ 0)
  have hstart : XF.sub (.fin c) (XF.mul (.fin padFactor)
      (XF.div (.fin (c - c)) (.fin (n : ℚ)))) = .fin c := by
    rw [sub_self, XF.div_fin_of_ne _ _ hn0, zero_div, XF.mul_fin, mul_zero,
      XF.sub_fin, sub_zero]
  have hstop : XF.add (.fin c) (XF.mul (.fin padFactor)
      (XF.div (.fin (c - c)) (.fin (n : ℚ)))) = .fin c := by
    rw [sub_self, XF.div_fin_of_ne _ _ hn0, zero_div, XF.mul_fin, mul_zero,
      XF.add_fin, add_zero]
  have htn : (n + 1).toNat = n.toNat + 1 := by omega
  have hk1 : 1 ≤ n.toNat := by omega
  have hlin : linspace (XF.fin c) (XF.fin c) (n + 1) =
      Except.ok (List.replicate (n.toNat + 1) (XF.fin c)) := by
    rw [linspace_const_fin c (n + 1) (by omega), htn]
  obtain ⟨fp, hfp, hfplen, hfptop⟩ :=
    histogramDensity_const_spec (activeZeta p) c n.toNat hk1 hall
  unfold line_density lineDensityGrid
  simp only [hmax, hmin, hstart, hstop, hlin, zipWith_mid_replicate, hfp]
  unfold npInterp
  rw [List.length_replicate, if_neg (by omega),
    if_neg (show ¬ (n.toNat ≠ fp.length) by rw [hfplen]; omega)]
  refine congrArg Except.ok ?_
  refine List.eq_replicate_iff.mpr ⟨by rw [List.length_map], ?_⟩
  intro b hb
  rw [List.mem_map] at hb
  obtain ⟨z, hz, hbz⟩ := hb
  rw [← hbz, hall z hz, interpOne_const_top n.toNat hk1 c fp, hfptop hne]

/-! Theorems for the claims. -/

/-- C2 counterexample: the constructor performs no num_slices validation:
`IBSSimpleKick("nagaitsev", 0)` and `IBSSimpleKick("nagaitsev", -3)` both
construct successfully instead of failing with InvalidConfiguration. -/
theorem C2_counterexample :
    (∃ k, IBSSimpleKick.init "nagaitsev" 0 = Except.ok k) ∧
    (∃ k, IBSSimpleKick.init "nagaitsev" (-3) = Except.ok k) := by
  refine ⟨⟨⟨0, "nagaitsev", none, none, none, 0⟩, ?_⟩,
          ⟨⟨-3, "nagaitsev", none, none, none, 0⟩, ?_⟩⟩ <;>
    · unfold IBSSimpleKick.init
      rw [if_pos (by decide)]

/-- C2 (amended): the IBSSimpleKick constructor does not validate
num_slices: every integer value, including zero and negatives, is accepted
at configuration time. The failure surfaces only later, inside
line_density during tracking, which raises for every non-positive
num_slices (negative sample count for the bin edges, or an empty
interpolation grid after the zero-width slicing). -/
theorem C2_no_num_slices_validation (n : Int) :
    (∃ k, IBSSimpleKick.init "nagaitsev" n = Except.ok k) ∧
    (n ≤ 0 → ∀ p : Particles, activeZeta p ≠ [] →
      ∃ e, line_density p n = Except.error e) := by
  constructor
  · refine ⟨⟨n, "nagaitsev", none, none, none, 0⟩, ?_⟩
    unfold IBSSimpleKick.init
    rw [if_pos (by decide)]
  · intro hn p hne
    obtain ⟨x, xs, hxs⟩ : ∃ x xs, activeZeta p = x :: xs := by
      cases hzs : activeZeta p with
      | nil => exact absurd hzs hne
      | cons x xs => exact ⟨x, xs, rfl⟩
    have hmax : npMax (activeZeta p) = Except.ok (xs.foldl max x) := by rw [hxs]; rfl
    have hmin : npMin (activeZeta p) = Except.ok (xs.foldl min x) := by rw [hxs]; rfl
    unfold line_density lineDensityGrid
    simp only [hmax, hmin]
    rcases (by omega : n ≤ -2 ∨ n = -1 ∨ n = 0) with h2 | h1 | h0
    · rw [linspace_neg _ _ _ (by omega)]
      exact ⟨_, rfl⟩
    · subst h1
      rw [show (-1 : Int) + 1 = 0 from rfl, linspace_zero]
      simp only [List.tail_nil, List.zipWith_nil_left, histogramDensity_nil,
        npInterp_nil]
      exact ⟨_, rfl⟩
    · subst h0
      rw [show (0 : Int) + 1 = 1 from rfl, linspace_one]
      simp only [List.tail_cons, List.zipWith_nil_right, histogramDensity_single,
        npInterp_nil]
      exact ⟨_, rfl⟩

/-- Witness for C2 (amended) at num_slices = 0 with the ensemble pDeg. -/
theorem C2_witness :
    (∃ k, IBSSimpleKick.init "nagaitsev" 0 = Except.ok k) ∧
    (∃ e, line_density pDeg 0 = Except.error e) :=
  ⟨(C2_no_num_slices_validation 0).1,
   (C2_no_num_slices_validation 0).2 (by omega) pDeg (by with_unfolding_all decide)⟩

/-- C3: constructing `IBSSimpleKick` with a formalism string whose lowercase
form is not one of "nagaitsev", "bjorken-mtingwa", "b&m" raises at
construction time (the constructor assertion), and every string whose
lowercase form is accepted constructs successfully, for every num_slices. -/
theorem C3_formalism_validation (f : String) (n : Int) :
    (pyLower f ∈ acceptedFormalisms → ∃ k, IBSSimpleKick.init f n = Except.ok k) ∧
    (pyLower f ∉ acceptedFormalisms →
      IBSSimpleKick.init f n = Except.error KickError.assertionError) := by
  constructor
  · intro h
    exact ⟨{ num_slices := n, formalism := f, kick_coefficients := none,
             update_every := none, name := none, scale_strength := 0 },
           by simp [IBSSimpleKick.init, h]⟩
  · intro h
    simp [IBSSimpleKick.init, h]

/-- Witness for C3: "B&M" and "Bjorken-Mtingwa" construct successfully,
"quadrupole" is rejected at construction. -/
theorem C3_witness :
    (∃ k, IBSSimpleKick.init "B&M" 50 = Except.ok k) ∧
    (∃ k, IBSSimpleKick.init "Bjorken-Mtingwa" 50 = Except.ok k) ∧
    IBSSimpleKick.init "quadrupole" 50 = Except.error KickError.assertionError :=
  ⟨(C3_formalism_validation "B&M" 50).1 (by decide),
   (C3_formalism_validation "Bjorken-Mtingwa" 50).1 (by decide),
   (C3_formalism_validation "quadrupole" 50).2 (by decide)⟩

/-- C4: a freshly constructed `IBSSimpleKick` has scale strength exactly 0,
unset kick coefficients and unset update_every, and `track` on it is a
no-op: the element, the particle coordinates and the random-draw counter
are all returned unchanged. -/
theorem C4_unconfigured_track_noop (f : String) (n : Int) (k : IBSSimpleKick)
    (h : IBSSimpleKick.init f n = Except.ok k) :
    k.scale_strength = 0 ∧ k.kick_coefficients = none ∧ k.update_every = none ∧
    ∀ (p : Particles) (rngDraws : Nat), k.track p rngDraws = (k, p, rngDraws) := by
  unfold IBSSimpleKick.init at h
  split at h
  · cases h
    refine ⟨rfl, rfl, rfl, ?_⟩
    intro p r
    simp [IBSSimpleKick.track]
  · cases h

/-- Witness for C4 at a concrete construction and ensemble. -/
theorem C4_witness :
    kFresh.scale_strength = 0 ∧ kFresh.kick_coefficients = none ∧
    kFresh.update_every = none ∧ kFresh.track pW 7 = (kFresh, pW, 7) :=
  (fun h => ⟨h.1, h.2.1, h.2.2.1, h.2.2.2 pW 7⟩)
    (C4_unconfigured_track_noop "nagaitsev" 50 kFresh rfl)

/-- C6: line_density builds exactly num_slices + 1 uniformly spaced bin
edges running from z_cut_tail − 1e-7·slice_width to
z_cut_head + 1e-7·slice_width (slice_width = (head − tail)/num_slices,
head/tail the extreme active zeta values), and the bin centers are the
midpoints of consecutive edges. -/
theorem C6_bin_edges_centers (p : Particles) (n : Int) (zmax zmin : ℚ)
    (hmax : npMax (activeZeta p) = Except.ok zmax)
    (hmin : npMin (activeZeta p) = Except.ok zmin)
    (hn : 1 ≤ n) :
    ∃ edges centers, lineDensityGrid p n = Except.ok (edges, centers) ∧
      edges.length = n.toNat + 1 ∧
      (∀ i : Nat, i < n.toNat + 1 →
        edges.getD i .nan = XF.fin
          ((zmin - padFactor * ((zmax - zmin) / (n : ℚ))) + (i : ℚ) *
            (((zmax + padFactor * ((zmax - zmin) / (n : ℚ))) -
              (zmin - padFactor * ((zmax - zmin) / (n : ℚ)))) / (n : ℚ)))) ∧
      centers = List.zipWith (fun a b => XF.div (XF.add a b) (.fin 2))
        edges edges.tail := by
  have hn0 : ((n : ℚ)) ≠ 0 := by exact_mod_cast (by omega : n ≠ 0)
  have hstart : XF.sub (.fin zmin) (XF.mul (.fin padFactor)
      (XF.div (.fin (zmax - zmin)) (.fin (n : ℚ)))) =
      .fin (zmin - padFactor * ((zmax - zmin) / (n : ℚ))) := by
    rw [XF.div_fin_of_ne _ _ hn0, XF.mul_fin, XF.sub_fin]
  have hstop : XF.add (.fin zmax) (XF.mul (.fin padFactor)
      (XF.div (.fin (zmax - zmin)) (.fin (n : ℚ)))) =
      .fin (zmax + padFactor * ((zmax - zmin) / (n : ℚ))) := by
    rw [XF.div_fin_of_ne _ _ hn0, XF.mul_fin, XF.add_fin]
  set A : ℚ := zmin - padFactor * ((zmax - zmin) / (n : ℚ)) with hA
  set B : ℚ := zmax + padFactor * ((zmax - zmin) / (n : ℚ)) with hB
  have hlin : linspace (.fin A) (.fin B) (n + 1) = Except.ok
      ((List.range (n.toNat + 1)).map (fun (i : Nat) =>
        if (i : Int) = n then .fin B
        else XF.add (.fin A) (XF.mul (.fin (i : ℚ))
          (XF.div (XF.sub (.fin B) (.fin A)) (.fin ((n : Int) : ℚ)))))) := by
    unfold linspace
    rw [if_neg (by omega), if_neg (by omega), if_neg (by omega)]
    have h1 : (n + 1).toNat = n.toNat + 1 := by omega
    have h2 : (n + 1 - 1 : Int) = n := by ring
    rw [h1, h2]
  unfold lineDensityGrid
  simp only [hmax, hmin, hstart, hstop, hlin]
  refine ⟨_, _, rfl, ?_, ?_, rfl⟩
  · rw [List.length_map, List.length_range]
  · intro i hi
    rw [getD_map_range _ _ _ _ hi]
    by_cases hc : (i : Int) = n
    · rw [if_pos hc]
      have hiq : (i : ℚ) = ((n : Int) : ℚ) := by exact_mod_cast hc
      refine congrArg XF.fin ?_
      rw [hiq]
      field_simp
    · rw [if_neg hc, XF.sub_fin, XF.div_fin_of_ne _ _ hn0, XF.mul_fin, XF.add_fin]

/-- Witness for C6 at the ensemble pW (active zeta values 0 and 1) with
two slices. -/
theorem C6_witness :
    ∃ edges centers, lineDensityGrid pW 2 = Except.ok (edges, centers) ∧
      edges.length = (2 : Int).toNat + 1 ∧
      (∀ i : Nat, i < (2 : Int).toNat + 1 →
        edges.getD i .nan = XF.fin
          ((0 - padFactor * ((1 - 0) / ((2 : Int) : ℚ))) + (i : ℚ) *
            (((1 + padFactor * ((1 - 0) / ((2 : Int) : ℚ))) -
              (0 - padFactor * ((1 - 0) / ((2 : Int) : ℚ)))) / ((2 : Int) : ℚ)))) ∧
      centers = List.zipWith (fun a b => XF.div (XF.add a b) (.fin 2))
        edges edges.tail :=
  C6_bin_edges_centers pW 2 1 0 (by with_unfolding_all decide)
    (by with_unfolding_all decide) (by omega)

/-- C7: every call of `to_dict`, on the `IBSKick` parent or on a subclass
instance in any state, evaluates to the `NotImplementedError` outcome and
never to a returned dictionary. -/
theorem C7_to_dict_always_raises : ∀ e : IBSKickElement,
    e.to_dict = Except.error KickError.notImplementedError :=
  fun _ => rfl

/-- C9: for each of the three coefficient value objects, construction
followed by `as_tuple` round-trips in fixed order. -/
theorem C9_as_tuple_roundtrip : ∀ a b c : ℚ,
    (DiffusionCoefficients.mk a b c).as_tuple = (a, b, c) ∧
    (FrictionCoefficients.mk a b c).as_tuple = (a, b, c) ∧
    (IBSKickCoefficients.mk a b c).as_tuple = (a, b, c) :=
  fun _ _ _ => ⟨rfl, rfl, rfl⟩

/-- C5: whenever line_density returns a weight array, that array has exactly
one entry per active particle, produced in order by mapping a single
evaluation function over the active zeta values. -/
theorem C5_output_shape (p : Particles) (n : Int) (w : List XF)
    (h : line_density p n = Except.ok w) :
    w.length = (activeZeta p).length ∧
    ∃ g : ℚ → XF, w = (activeZeta p).map g := by
  unfold line_density at h
  cases hg : lineDensityGrid p n with
  | error e =>
      simp [hg] at h
  | ok gc =>
      obtain ⟨edges, centers⟩ := gc
      simp only [hg] at h
      cases hh : histogramDensity (activeZeta p) edges with
      | error e =>
          simp [hh] at h
      | ok cn =>
          simp only [hh] at h
          unfold npInterp at h
          by_cases h0 : centers.length = 0
          · rw [if_pos h0] at h
            simp at h
          · rw [if_neg h0] at h
            by_cases h1 : centers.length ≠ cn.length
            · rw [if_pos h1] at h
              simp at h
            · rw [if_neg h1] at h
              cases h
              exact ⟨by rw [List.length_map], ⟨_, rfl⟩⟩


/-- C1 counterexample: on the degenerate ensemble pDeg (all active particles
at zeta = 1) with two slices, line_density does not detect the zero slice
width: it returns a weight array of infinities, not a finite uniform array. -/
theorem C1_counterexample :
    line_density pDeg 2 = Except.ok [XF.pinf, XF.pinf] ∧
    XF.pinf.isFinite = false := by
  constructor
  · have h := line_density_degenerate pDeg 2 1 (by with_unfolding_all decide)
      (by with_unfolding_all decide) (by omega)
    rw [h, show (activeZeta pDeg).length = 2 from by with_unfolding_all decide]
    rfl
  · rfl

/-- C1 (amended): line_density contains no zero-slice-width detection. On
every ensemble whose active particles all share one longitudinal coordinate
(and any positive num_slices) it does not raise, and it does return an
array with one entry per active particle, but the density normalisation
divides by the zero bin width, so every returned weight is positive
infinity rather than a finite uniform weight. -/
theorem C1_degenerate_weights_infinite (p : Particles) (n : Int) (c : ℚ)
    (hne : activeZeta p ≠ []) (hall : ∀ z ∈ activeZeta p, z = c) (hn : 1 ≤ n) :
    ∃ w, line_density p n = Except.ok w ∧ w.length = (activeZeta p).length ∧
      w ≠ [] ∧ ∀ x ∈ w, x = XF.pinf := by
  refine ⟨_, line_density_degenerate p n c hne hall hn, List.length_replicate .., ?_, ?_⟩
  · have hm : (activeZeta p).length ≠ 0 := by
      have := List.length_pos.mpr hne
      omega
    intro hcon
    exact hm (by simpa using congrArg List.length hcon)
  · intro x hx
    exact List.eq_of_mem_replicate hx

/-- Witness for C1 at the concrete degenerate ensemble with three slices. -/
theorem C1_witness :
    ∃ w, line_density pDeg 3 = Except.ok w ∧ w.length = (activeZeta pDeg).length ∧
      w ≠ [] ∧ ∀ x ∈ w, x = XF.pinf :=
  C1_degenerate_weights_infinite pDeg 3 1 (by with_unfolding_all decide)
    (by with_unfolding_all decide) (by omega)

/-- Witness for C5 at the degenerate ensemble pDeg with two slices. -/
theorem C5_witness :
    (List.replicate 2 XF.pinf).length = (activeZeta pDeg).length ∧
    ∃ g : ℚ → XF, List.replicate 2 XF.pinf = (activeZeta pDeg).map g :=
  C5_output_shape pDeg 2 (List.replicate 2 XF.pinf) (by
    have h := line_density_degenerate pDeg 2 1 (by with_unfolding_all decide)
      (by with_unfolding_all decide) (by omega)
    rw [show (activeZeta pDeg).length = 2 from by with_unfolding_all decide] at h
    exact h)

/-- C8: line_density depends only on the zeta values of active particles:
two ensembles whose active particles have identical longitudinal
coordinates in identical order yield identical weight arrays, regardless
of their inactive particles. -/
theorem C8_noninterference (p1 p2 : Particles) (n : Int)
    (h : activeZeta p1 = activeZeta p2) :
    line_density p1 n = line_density p2 n := by
  unfold line_density lineDensityGrid
  rw [h]

/-- Witness for C8: two ensembles with active zeta [1, 2] but different
inactive particles give the same weights. -/
theorem C8_witness : line_density pA 2 = line_density pB 2 :=
  C8_noninterference pA pB 2 (by decide)

/-- C10: line_density never mutates the ensemble: the state-passing form
returns the particle object unchanged on every path, and its result agrees
with the pure function. -/
theorem C10_no_mutation : ∀ (p : Particles) (n : Int),
    (line_densityS p n).1 = p ∧ (line_densityS p n).2 = line_density p n := by
  intro p n
  unfold line_densityS line_density
  cases hg : lineDensityGrid p n with
  | error e => simp [hg]
  | ok gc =>
    obtain ⟨edges, centers⟩ := gc
    cases hh : histogramDensity (activeZeta p) edges with
    | error e => simp [hg, hh]
    | ok cn => simp [hg, hh]

end XfIBS
